import Mathlib

/-!
Verification of the valkyrjs/auth permission resolution engine.

The development shallowly embeds the TypeScript sources:
JavaScript objects keyed by strings become association lists (`Obj`),
class methods become functions over explicit structures, optional
values become `Option`, and code that may throw becomes `Except`.
-/

namespace ValkyrAuth

/-- A JavaScript-object-like record: string keys in insertion order.
Real JS objects never hold duplicate keys, so the list operations below
act on the first (unique) occurrence of a key. -/
abbrev Obj (V : Type) : Type := List (String × V)

namespace Obj

/-- Property read `o[k]`: the entry with the key, if any. -/
def get {V : Type} : Obj V → String → Option V
  | [], _ => none
  | p :: t, k => if p.1 == k then some p.2 else get t k

/-- Property write `o[k] = v`: overwrite in place when the key exists,
append otherwise (JS objects keep insertion order). -/
def set {V : Type} : Obj V → String → V → Obj V
  | [], k, v => [(k, v)]
  | p :: t, k, v => if p.1 == k then (k, v) :: t else p :: set t k v

/-- Property delete `delete o[k]`: drops the entry with the key. -/
def del {V : Type} : Obj V → String → Obj V
  | [], _ => []
  | p :: t, k => if p.1 == k then del t k else p :: del t k

end Obj

namespace Lib

/-! Embedding of `src/libraries/types.ts`, `src/libraries/access.ts`,
`src/libraries/permission.ts`, `src/libraries/guard.ts` (part_001) and
`src/libraries/auth.ts`. Conditional data and conditions are type
parameters `Data` and `Cond`; zod schema objects carried only for
typing are omitted, runtime-relevant fields are kept. -/

/-- `ActionValidator` from types.ts: every option is optional. -/
structure ActionValidator (Data Cond : Type) where
  validate : Option (Data → Cond → Bool) := none
  error : Option String := none
  filter : Option (List String) := none

/-- A schema action entry: `ActionValidator<any, any> | true`. -/
inductive SchemaAction (Data Cond : Type)
  | always
  | validator (v : ActionValidator Data Cond)

/-- A role permission entry: `true` or a conditions value. -/
inductive RoleAction (Cond : Type)
  | always
  | cond (c : Cond)
deriving DecidableEq

abbrev RolePermissions (Cond : Type) := Obj (Obj (RoleAction Cond))

/-- The `Access` class: schema permissions plus assigned role permissions. -/
structure Access (Data Cond : Type) where
  permissions : Obj (Obj (SchemaAction Data Cond))
  assignments : List (RolePermissions Cond)

/-- `Access.#getActionValidator`: the schema action entry when it is
neither absent nor `true`. -/
def Access.getActionValidator {Data Cond : Type} (a : Access Data Cond)
    (resourceId actionId : String) : Option (ActionValidator Data Cond) :=
  match (Obj.get a.permissions resourceId).bind (fun r => Obj.get r actionId) with
  | some (SchemaAction.validator v) => some v
  | _ => none

/-- `Access.has`: some assignment grants the pair. A bare `true` entry
grants outright; a conditional entry needs a schema validator, whose
optional call `validator.validate?.(data, action)` only denies when it
returns strictly `false`. -/
def Access.has {Data Cond : Type} (a : Access Data Cond)
    (resourceId actionId : String) (data : Data) : Bool :=
  let validator := a.getActionValidator resourceId actionId
  a.assignments.any fun permissions =>
    match Obj.get permissions resourceId with
    | none => false
    | some resource =>
      match Obj.get resource actionId with
      | none => false
      | some RoleAction.always => true
      | some (RoleAction.cond c) =>
        match validator with
        | none => false
        | some v =>
          match v.validate with
          | none => true
          | some f => f data c

/-- The `Response` union from permission.ts. -/
inductive Response
  | granted (filter : Option (List String))
  | denied (message : Option String)
deriving DecidableEq

/-- The `Permission` class fields. -/
structure Permission where
  granted : Bool
  message : Option String := none
  attributes : Option (List String) := none
deriving DecidableEq

/-- The `Permission` constructor. JS truthiness: an array (even empty)
is truthy, the empty string is falsy. -/
def Permission.ofResponse : Response → Permission
  | Response.granted filter =>
    { granted := true
      attributes := filter }
  | Response.denied message =>
    { granted := false
      message :=
        match message with
        | some s => if s == "" then none else some s
        | none => none }

/-- `Access.#getActionError`. -/
def Access.getActionError {Data Cond : Type} (a : Access Data Cond)
    (resourceId actionId : String) : Option String :=
  (a.getActionValidator resourceId actionId).bind (fun v => v.error)

/-- `Access.#getActionFilter` (libraries revision: schema filter only). -/
def Access.getActionFilter {Data Cond : Type} (a : Access Data Cond)
    (resourceId actionId : String) : Option (List String) :=
  (a.getActionValidator resourceId actionId).bind (fun v => v.filter)

/-- `Access.check`. -/
def Access.check {Data Cond : Type} (a : Access Data Cond)
    (resourceId actionId : String) (data : Data) : Permission :=
  if a.has resourceId actionId data = false then
    Permission.ofResponse (Response.denied (some
      ((a.getActionError resourceId actionId).getD
        "Session is missing one, or more access permissions.")))
  else
    Permission.ofResponse (Response.granted (a.getActionFilter resourceId actionId))

/-- JSON-like runtime values handled by `Permission.filter` and dot-prop. -/
inductive Json
  | undef
  | null
  | bool (b : Bool)
  | num (n : Int)
  | str (s : String)
  | arr (elems : List Json)
  | obj (fields : List (String × Json))

/-- Dot-path walk used by dot-prop `getProperty`: follow the segments
through nested objects, `undefined` as soon as a segment is missing. -/
def Json.getPath : Json → List String → Json
  | v, [] => v
  | Json.obj fields, seg :: rest =>
    match Obj.get fields seg with
    | some v => Json.getPath v rest
    | none => Json.undef
  | _, _ :: _ => Json.undef

/-- Character-level worker for `path.split(".")`. -/
def splitDotAux : List Char → List Char → List String
  | [], cur => [String.mk cur.reverse]
  | c :: rest, cur =>
    if c = '.' then String.mk cur.reverse :: splitDotAux rest []
    else splitDotAux rest (c :: cur)

/-- `path.split(".")`: the dot-separated segments of a path. -/
def splitDot (path : String) : List String :=
  splitDotAux path.data []

/-- `getProperty(data, key)` with a dot-notation key. -/
def getProperty (data : Json) (path : String) : Json :=
  Json.getPath data (splitDot path)

/-- `filterWithAttributes`: build a fresh record holding each declared
key, read from the input by dot-path. -/
def filterWithAttributes (data : Json) (keys : List String) : Obj Json :=
  keys.foldl (fun result key => Obj.set result key (getProperty data key)) []

/-- `Permission.filter`: pass data through when no attributes are set,
project each element of a sequence, project a single record otherwise. -/
def Permission.filter (p : Permission) (data : Json) : Json :=
  match p.attributes with
  | none => data
  | some attributes =>
    match data with
    | Json.arr elems => Json.arr (elems.map (fun d => Json.obj (filterWithAttributes d attributes)))
    | d => Json.obj (filterWithAttributes d attributes)

/-- The `Guard` class (part_001): a name, a zod input schema (modelled
as its parse outcome) and the check handler, which may throw (`E`). -/
structure Guard (Input Parsed E : Type) where
  name : String
  input : Input → Option Parsed
  checkHandler : Parsed → Except E Bool

/-- `Guard.check`: schema failure normalizes to `false`; a successful
parse forwards to the handler, whose outcome (value or exception) is
returned unchanged. -/
def Guard.check {Input Parsed E : Type} (g : Guard Input Parsed E)
    (input : Input) : Except E Bool :=
  match g.input input with
  | none => Except.ok false
  | some parsed => g.checkHandler parsed

/-- The guard registry of the `Auth` class. -/
structure Auth (Input Parsed E : Type) where
  guards : Obj (Guard Input Parsed E)

/-- The constructor's `config.guards.reduce((m, g) => m.set(g.name, g), new Map())`. -/
def Auth.ofGuards {Input Parsed E : Type} (gs : List (Guard Input Parsed E)) :
    Auth Input Parsed E :=
  ⟨gs.foldl (fun m g => Obj.set m g.name g) []⟩

/-- `Auth.check`: unknown guard names resolve to `false`; otherwise the
guard's own check runs. -/
def Auth.check {Input Parsed E : Type} (a : Auth Input Parsed E)
    (name : String) (input : Input) : Except E Bool :=
  match Obj.get a.guards name with
  | none => Except.ok false
  | some guard => guard.check input

/-- A thrown JOSE library error: carries its stable `code` and `message`. -/
structure JoseError where
  code : String
  message : String
deriving DecidableEq

/-- The `SessionResolution` union returned by `Auth.resolve`. -/
inductive SessionResolution (S R : Type)
  | valid (session : S) (roles : List R)
  | invalid (code message : String)
deriving DecidableEq

/-- `Auth.resolve`'s try/catch dispatch. The stage outcomes of the
external calls — `jwtVerify` (throws `JoseError`), `session.parseAsync`
(throws a non-JOSE error on shape mismatch) and the roles provider —
are inputs. A caught `JOSEError` keeps its own code; every other
exception becomes `AUTH_INTERNAL_ERROR`. -/
def resolve {P S R : Type} (verify : Except JoseError P)
    (parseSession : P → Except String S)
    (getBySession : S → Except String (List R)) : SessionResolution S R :=
  match verify with
  | Except.error e => SessionResolution.invalid e.code e.message
  | Except.ok payload =>
    match parseSession payload with
    | Except.error m => SessionResolution.invalid "AUTH_INTERNAL_ERROR" m
    | Except.ok session =>
      match getBySession session with
      | Except.error m => SessionResolution.invalid "AUTH_INTERNAL_ERROR" m
      | Except.ok roles => SessionResolution.valid session roles

/-- The failure code of a resolution, if it is a failure. -/
def SessionResolution.failureCode {S R : Type} : SessionResolution S R → Option String
  | SessionResolution.invalid code _ => some code
  | SessionResolution.valid _ _ => none

end Lib

namespace V2

/-! Embedding of the part_000/part_003 revision: schema entries split a
`validator` and a `filter`, role entries are `true` or an object with
optional `conditions` and `filter` keys, and the attribute filter of a
granted check merges assignment overrides as a set union. -/

/-- part_003 `ActionValidator`: all fields required. -/
structure ActionValidator (Data Cond : Type) where
  validate : Data → Cond → Bool
  error : String

/-- part_003 `ActionFilter`. -/
structure ActionFilter where
  filter : List String
deriving DecidableEq

/-- A schema action object `{ validator?, filter? }`. -/
structure ActionSettings (Data Cond : Type) where
  validator : Option (ActionValidator Data Cond) := none
  filter : Option ActionFilter := none

/-- A schema action entry: the object above, or `true`. -/
inductive SchemaAction (Data Cond : Type)
  | always
  | settings (s : ActionSettings Data Cond)

/-- A role action object: optional `conditions` and `filter` keys
(`Option` models JS key presence). -/
structure RoleActionSettings (Cond : Type) where
  conditions : Option Cond := none
  filter : Option (List String) := none
deriving DecidableEq

/-- A role permission entry: the object above, or `true`. -/
inductive RoleAction (Cond : Type)
  | always
  | settings (s : RoleActionSettings Cond)
deriving DecidableEq

abbrev RolePermissions (Cond : Type) := Obj (Obj (RoleAction Cond))

structure Access (Data Cond : Type) where
  permissions : Obj (Obj (SchemaAction Data Cond))
  assignments : List (RolePermissions Cond)

/-- `Access.#getActionValidator` (part_000): `action.validator`. -/
def Access.getActionValidator {Data Cond : Type} (a : Access Data Cond)
    (resourceId actionId : String) : Option (ActionValidator Data Cond) :=
  match (Obj.get a.permissions resourceId).bind (fun r => Obj.get r actionId) with
  | some (SchemaAction.settings s) => s.validator
  | _ => none

/-- `Access.has` (part_000): bare `true` grants; with a schema
validator, an entry needs a `conditions` key that validates; without
one, an entry with a `filter` key is granted. -/
def Access.has {Data Cond : Type} (a : Access Data Cond)
    (resourceId actionId : String) (data : Data) : Bool :=
  let validator := a.getActionValidator resourceId actionId
  a.assignments.any fun permissions =>
    match Obj.get permissions resourceId with
    | none => false
    | some resource =>
      match Obj.get resource actionId with
      | none => false
      | some RoleAction.always => true
      | some (RoleAction.settings s) =>
        match validator with
        | some v =>
          match s.conditions with
          | some c => v.validate data c
          | none => false
        | none => s.filter.isSome

/-- Insertion-ordered de-duplicating add of every element of the list,
as `action.filter.forEach(filter.add, filter)` on a JS `Set`. -/
def addToSet (acc : List String) (l : List String) : List String :=
  l.foldl (fun acc s => if acc.contains s then acc else acc ++ [s]) acc

/-- One loop iteration of `Access.#getActionFilter`: a non-`true` entry
with a `filter` key contributes its attributes and disables the schema
fallback. -/
def filterStep {Cond : Type} (resourceId actionId : String) :
    Bool × List String → RolePermissions Cond → Bool × List String :=
  fun st assignment =>
    match (Obj.get assignment resourceId).bind (fun r => Obj.get r actionId) with
    | some (RoleAction.settings s) =>
      match s.filter with
      | some l => (false, addToSet st.2 l)
      | none => st
    | _ => st

/-- `Access.#getActionFilter` (part_000): union the assignment filter
overrides; only when none exist, fall back to the schema filter. -/
def Access.getActionFilter {Data Cond : Type} (a : Access Data Cond)
    (resourceId actionId : String) : Option (List String) :=
  let r := a.assignments.foldl (filterStep resourceId actionId) (true, [])
  if r.1 = false then some r.2
  else
    match (Obj.get a.permissions resourceId).bind (fun r => Obj.get r actionId) with
    | some (SchemaAction.settings s) => s.filter.map (fun f => f.filter)
    | _ => none

/-- `Access.#getActionError` (part_000). -/
def Access.getActionError {Data Cond : Type} (a : Access Data Cond)
    (resourceId actionId : String) : Option String :=
  (a.getActionValidator resourceId actionId).map (fun v => v.error)

/-- `Access.check` (part_000), producing the shared `Permission`. -/
def Access.check {Data Cond : Type} (a : Access Data Cond)
    (resourceId actionId : String) (data : Data) : Lib.Permission :=
  if a.has resourceId actionId data = false then
    Lib.Permission.ofResponse (Lib.Response.denied (some
      ((a.getActionError resourceId actionId).getD
        "Session is missing one, or more access permissions.")))
  else
    Lib.Permission.ofResponse (Lib.Response.granted (a.getActionFilter resourceId actionId))

/-- The filter overrides carried by the assignments for a pair, in
order: stated from the claim's words to compare with the code. -/
def overridesOf {Cond : Type} (assignments : List (RolePermissions Cond))
    (resourceId actionId : String) : List (List String) :=
  assignments.filterMap fun assignment =>
    match (Obj.get assignment resourceId).bind (fun r => Obj.get r actionId) with
    | some (RoleAction.settings s) => s.filter
    | _ => none

end V2

namespace Store

/-! Embedding of `src/stores/tables/roles/methods.ts`: the pure
assign/remove operation fold behind `setPermissions`. The stored
permissions mapping is the function's state; the returned mapping is
exactly what a subsequent `getRole` reads back. -/

/-- A stored role action value: `conditions ?? true`. -/
inductive PermValue (C : Type)
  | always
  | cond (c : C)
deriving DecidableEq

abbrev RolePermissions (C : Type) := Obj (Obj (PermValue C))

/-- The `Operation` union from types.ts. -/
inductive Operation (C : Type)
  | set (resource action : String) (data : Option C)
  | unset (resource : String) (action : Option String)

/-- `assign`: create the resource object when missing, then write the
action to `conditions ?? true`. -/
def assign {C : Type} (permissions : RolePermissions C)
    (resource action : String) (data : Option C) : RolePermissions C :=
  let r := (Obj.get permissions resource).getD []
  Obj.set permissions resource
    (Obj.set r action (match data with | some c => PermValue.cond c | none => PermValue.always))

/-- `remove`: `if (action)` — a present, nonempty action deletes just
that action (via optional chaining); otherwise the whole resource entry
is deleted. The empty string is falsy in JS. -/
def remove {C : Type} (permissions : RolePermissions C)
    (resource : String) (action : Option String) : RolePermissions C :=
  match action with
  | some a =>
    if a == "" then Obj.del permissions resource
    else
      match Obj.get permissions resource with
      | none => permissions
      | some r => Obj.set permissions resource (Obj.del r a)
  | none => Obj.del permissions resource

/-- `setPermissions`: fold the operations over the stored mapping in
submission order. -/
def setPermissions {C : Type} (permissions : RolePermissions C)
    (operations : List (Operation C)) : RolePermissions C :=
  operations.foldl
    (fun permissions op =>
      match op with
      | Operation.set r a d => assign permissions r a d
      | Operation.unset r a => remove permissions r a)
    permissions

/-- Nested lookup `permissions[resource]?.[action]`. -/
def getPerm {C : Type} (permissions : RolePermissions C)
    (resource action : String) : Option (PermValue C) :=
  (Obj.get permissions resource).bind (fun r => Obj.get r action)

end Store

namespace Lib

/-! Concrete fixtures used to instantiate the theorems below. -/

/-- A single role granting `account.read` with a bare `true` entry. -/
def trueEntryAccess : Access Unit Unit :=
  ⟨[], [[("account", [("read", RoleAction.always)])]]⟩

/-- A schema validator carrying only a filter: no `validate` function. -/
def filterOnlyValidator : ActionValidator Unit Unit :=
  { filter := some ["name"] }

/-- Schema declaring a filter-only validator; one conditional entry. -/
def filterOnlyAccess : Access Unit Unit :=
  ⟨[("doc", [("read", SchemaAction.validator filterOnlyValidator)])],
   [[("doc", [("read", RoleAction.cond ())])]]⟩

/-- Empty schema; one role with a conditional entry for `doc.read`. -/
def condNoValidatorAccess : Access Unit Unit :=
  ⟨[], [[("doc", [("read", RoleAction.cond ())])]]⟩

/-- Schema entry is bare `true`; one conditional and one `true` role entry. -/
def trueSchemaCondAccess : Access Unit Unit :=
  ⟨[("doc", [("read", SchemaAction.always)])],
   [[("doc", [("read", RoleAction.cond ())])],
    [("doc", [("read", RoleAction.always)])]]⟩

/-- Schema action declaring the empty string as its error message. -/
def emptyErrorAccess : Access Unit Unit :=
  ⟨[("doc", [("read", SchemaAction.validator { error := some "" })])], [[]]⟩

/-- Schema action declaring a real error message; the assignment grants
an unrelated resource only. -/
def namedErrorAccess : Access Unit Unit :=
  ⟨[("doc", [("read", SchemaAction.validator { error := some "Denied" })])],
   [[("other", [("list", RoleAction.always)])]]⟩

/-- A guard whose predicate throws. -/
def throwingGuard : Guard Unit Unit String :=
  { name := "boom", input := fun _ => some (), checkHandler := fun _ => Except.error "exploded" }

/-- A guard whose input schema rejects everything. -/
def failingParseGuard : Guard Unit Unit String :=
  { name := "strict", input := fun _ => none, checkHandler := fun _ => Except.ok true }

/-- Session parse stage that accepts. -/
def parseUnitOk : Unit → Except String Unit := fun _ => Except.ok ()

/-- Session parse stage that rejects the claim shape (a zod error). -/
def parseUnitMismatch : Unit → Except String Unit :=
  fun _ => Except.error "invalid session shape"

/-- Roles provider stage that succeeds. -/
def rolesUnitOk : Unit → Except String (List Unit) := fun _ => Except.ok []

/-- Roles provider stage that throws internally. -/
def rolesUnitFail : Unit → Except String (List Unit) :=
  fun _ => Except.error "unexpected provider failure"

end Lib

namespace V2

/-- Two assignments overriding the same action filter with `["a"]` and
`["a","b"]`; the schema declares filter `["name","email"]`. -/
def unionAccess : Access Unit Unit :=
  ⟨[("users", [("read", SchemaAction.settings { filter := some ⟨["name", "email"]⟩ })])],
   [[("users", [("read", RoleAction.settings { filter := some ["a"] })])],
    [("users", [("read", RoleAction.settings { filter := some ["a", "b"] })])]]⟩

/-- No assignment carries a filter override; the schema declares one. -/
def noOverrideAccess : Access Unit Unit :=
  ⟨[("users", [("read", SchemaAction.settings { filter := some ⟨["name", "email"]⟩ })])],
   [[("users", [("read", RoleAction.always)])]]⟩

/-- Empty schema; one role with a bare `conditions` entry (no `filter`
key) for `doc.read`, in the part_000 data model. -/
def condNoValidatorAccessV2 : Access Unit Unit :=
  ⟨[], [[("doc", [("read", RoleAction.settings { conditions := some () })])]]⟩

end V2

namespace Obj

@[simp]
theorem get_nil {V : Type} (k : String) : get ([] : Obj V) k = none := rfl

theorem get_cons {V : Type} (p : String × V) (o : Obj V) (k : String) :
    get (p :: o) k = if p.1 = k then some p.2 else get o k := by
  by_cases h : p.1 = k <;> simp [get, h]

theorem get_set {V : Type} (o : Obj V) (k k' : String) (v : V) :
    get (set o k v) k' = if k' = k then some v else get o k' := by
  induction o with
  | nil =>
    by_cases hk : k' = k
    · subst hk; simp [set, get]
    · simp [set, get, hk, Ne.symm hk]
  | cons p t ih =>
    by_cases hp : p.1 = k
    · rw [set, if_pos (by simpa using hp)]
      by_cases hk : k' = k
      · subst hk; simp [get]
      · have hpk : p.1 ≠ k' := by rw [hp]; exact Ne.symm hk
        simp [get, hk, hpk, Ne.symm hk]
    · rw [set, if_neg (by simpa using hp)]
      by_cases hpk : p.1 = k'
      · have hk : k' ≠ k := by rw [← hpk]; exact hp
        simp [get, hpk, hk]
      · simp [get, hpk, ih]

theorem get_del {V : Type} (o : Obj V) (k k' : String) :
    get (del o k) k' = if k' = k then none else get o k' := by
  induction o with
  | nil => simp [del]
  | cons p t ih =>
    by_cases hp : p.1 = k
    · rw [del, if_pos (by simpa using hp)]
      by_cases hk : k' = k
      · simpa [hk] using ih
      · have hpk : p.1 ≠ k' := by rw [hp]; exact fun h => hk h.symm
        simp [get, hk, hpk, ih]
    · rw [del, if_neg (by simpa using hp)]
      by_cases hpk : p.1 = k'
      · have hk : k' ≠ k := by rw [← hpk]; exact fun h => hp h
        simp [get, hpk, hk]
      · simp [get, hpk, ih]

end Obj

namespace Lib

/-- Claim C3: an assignment holding a bare `true` entry for the queried pair
makes `Access.has` return `true` for every data value, regardless of
the schema validator and of the other assignments. -/
theorem has_of_true_entry {Data Cond : Type} (a : Access Data Cond)
    (perms : RolePermissions Cond) (resource : Obj (RoleAction Cond))
    (resourceId actionId : String) (data : Data)
    (hmem : perms ∈ a.assignments)
    (hres : Obj.get perms resourceId = some resource)
    (hact : Obj.get resource actionId = some RoleAction.always) :
    a.has resourceId actionId data = true := by
  simp only [Access.has, List.any_eq_true]
  exact ⟨perms, hmem, by simp [hres, hact]⟩

/-- Witness for C3: a single role with `account.read = true`. -/
theorem has_of_true_entry_witness :
    trueEntryAccess.has "account" "read" () = true :=
  has_of_true_entry trueEntryAccess
    [("account", [("read", RoleAction.always)])] [("read", RoleAction.always)]
    "account" "read" () (by decide) (by decide) (by decide)

/-- Claim C10: when the schema entry is an `ActionValidator` with no
`validate` function, any non-`true` entry is accepted for every data:
the optional call yields `undefined`, which is not strictly `false`. -/
theorem has_validator_without_validate {Data Cond : Type} (a : Access Data Cond)
    (v : ActionValidator Data Cond) (perms : RolePermissions Cond)
    (resource : Obj (RoleAction Cond)) (resourceId actionId : String)
    (c : Cond) (data : Data)
    (hschema : (Obj.get a.permissions resourceId).bind (fun r => Obj.get r actionId) =
      some (SchemaAction.validator v))
    (hvalidate : v.validate = none)
    (hmem : perms ∈ a.assignments)
    (hres : Obj.get perms resourceId = some resource)
    (hact : Obj.get resource actionId = some (RoleAction.cond c)) :
    a.has resourceId actionId data = true := by
  simp only [Access.has, Access.getActionValidator, hschema, List.any_eq_true]
  exact ⟨perms, hmem, by simp [hres, hact, hvalidate]⟩

/-- Witness for C10: a filter-only validator accepts a conditional entry. -/
theorem has_validator_without_validate_witness :
    filterOnlyAccess.has "doc" "read" () = true :=
  has_validator_without_validate filterOnlyAccess filterOnlyValidator
    [("doc", [("read", RoleAction.cond ())])] [("read", RoleAction.cond ())]
    "doc" "read" () () rfl rfl (by decide) (by decide) (by decide)

/-- Claim C2 counterexample: with no `ActionValidator` declared in the schema
for the pair, a conditional entry is rejected: `has` returns `false`
where the claim demands `true` for every data value — in both the
libraries revision and the part_000 revision. -/
theorem has_conditional_without_validator_counterexample :
    condNoValidatorAccess.has "doc" "read" () = false ∧
    V2.condNoValidatorAccessV2.has "doc" "read" () = false := by
  exact ⟨by decide, by decide⟩

/-- Claim C2 amended: when the schema declares no `ActionValidator` for the
pair (entry absent or bare `true`), `has` degenerates to scanning for
bare `true` entries, so a conditional entry alone never grants. -/
theorem has_no_validator_amended {Data Cond : Type} (a : Access Data Cond)
    (resourceId actionId : String) (data : Data)
    (h : a.getActionValidator resourceId actionId = none) :
    a.has resourceId actionId data =
      a.assignments.any (fun permissions =>
        match (Obj.get permissions resourceId).bind (fun r => Obj.get r actionId) with
        | some RoleAction.always => true
        | _ => false) := by
  simp only [Access.has, h]
  congr 1
  funext permissions
  cases hres : Obj.get permissions resourceId with
  | none => simp [hres]
  | some resource =>
    cases hact : Obj.get resource actionId with
    | none => simp [hres, hact]
    | some entry => cases entry <;> simp [hres, hact]

/-- Witness for the amended C2: a bare `true` schema entry leaves no
validator, and only the role with the `true` entry grants. -/
theorem has_no_validator_amended_witness :
    trueSchemaCondAccess.has "doc" "read" () = true :=
  (has_no_validator_amended trueSchemaCondAccess "doc" "read" () rfl).trans (by decide)

/-- Claim C7: a `Permission` built by the constructor carries a message only
when denied, attributes only when granted, and never both. -/
theorem ofResponse_invariant (r : Response) :
    ((Permission.ofResponse r).granted = false ∨ (Permission.ofResponse r).message = none) ∧
    ((Permission.ofResponse r).granted = true ∨ (Permission.ofResponse r).attributes = none) ∧
    ((Permission.ofResponse r).message = none ∨ (Permission.ofResponse r).attributes = none) := by
  cases r with
  | granted filter =>
    exact ⟨Or.inr rfl, Or.inl rfl, Or.inl rfl⟩
  | denied message =>
    exact ⟨Or.inl rfl, Or.inr rfl, Or.inr rfl⟩

/-- Witness for C7 at concrete denied and granted responses. -/
theorem ofResponse_invariant_witness :
    ((Permission.ofResponse (Response.denied (some "nope"))).granted = false ∨
      (Permission.ofResponse (Response.denied (some "nope"))).message = none) ∧
    ((Permission.ofResponse (Response.granted (some ["a"]))).message = none ∨
      (Permission.ofResponse (Response.granted (some ["a"]))).attributes = none) :=
  ⟨(ofResponse_invariant (Response.denied (some "nope"))).1,
   (ofResponse_invariant (Response.granted (some ["a"]))).2.2⟩

/-- Claim C4 counterexample: a schema action declaring the empty string as
its error message yields a denied `Permission` whose message is absent,
not the declared error string (JS truthiness drops it). -/
theorem check_denied_empty_error_counterexample :
    (emptyErrorAccess.check "doc" "read" ()).granted = false ∧
    emptyErrorAccess.getActionError "doc" "read" = some "" ∧
    (emptyErrorAccess.check "doc" "read" ()).message = none :=
  ⟨rfl, rfl, rfl⟩

/-- Claim C4 amended: when no assignment has any entry for the pair, `has` is
`false` and `check` denies; the message is the schema action's declared
error string when that string is nonempty, the generic missing
permissions message when no error is declared, and absent when the
declared error is the empty string. -/
theorem check_denied_no_entries_amended {Data Cond : Type} (a : Access Data Cond)
    (resourceId actionId : String) (data : Data)
    (h : ∀ perms ∈ a.assignments,
      (Obj.get perms resourceId).bind (fun r => Obj.get r actionId) = none) :
    a.has resourceId actionId data = false ∧
    (a.check resourceId actionId data).granted = false ∧
    (a.check resourceId actionId data).message =
      (match a.getActionError resourceId actionId with
       | some e => if e == "" then none else some e
       | none => some "Session is missing one, or more access permissions.") := by
  have hhas : a.has resourceId actionId data = false := by
    simp only [Access.has, List.any_eq_false]
    intro permissions hmem
    have hlook := h permissions hmem
    cases hres : Obj.get permissions resourceId with
    | none => simp [hres]
    | some resource =>
      rw [hres, Option.some_bind] at hlook
      simp [hres, hlook]
  refine ⟨hhas, ?_, ?_⟩
  · rw [Access.check, if_pos hhas]
    rfl
  · rw [Access.check, if_pos hhas]
    cases herr : a.getActionError resourceId actionId with
    | none => simp [Permission.ofResponse, herr]
    | some e => simp [Permission.ofResponse, herr]

/-- Witness for the amended C4: the declared error message is attached
when nonempty. -/
theorem check_denied_no_entries_amended_witness :
    (namedErrorAccess.check "doc" "read" ()).granted = false ∧
    (namedErrorAccess.check "doc" "read" ()).message = some "Denied" := by
  have h := check_denied_no_entries_amended namedErrorAccess "doc" "read" () (by decide)
  exact ⟨h.2.1, h.2.2.trans rfl⟩

/-- Lookup in the record built by `filterWithAttributes`: every
declared key is present with its dot-path value, nothing else is. -/
theorem get_foldl_set_getProperty (data : Json) (keys : List String)
    (acc : Obj Json) (k : String) :
    Obj.get (keys.foldl (fun result key => Obj.set result key (getProperty data key)) acc) k =
      if k ∈ keys then some (getProperty data k) else Obj.get acc k := by
  induction keys generalizing acc with
  | nil => simp
  | cons key rest ih =>
    rw [List.foldl_cons, ih]
    by_cases hk : k ∈ rest
    · simp [hk, List.mem_cons]
    · rw [Obj.get_set]
      by_cases hkey : k = key
      · subst hkey; simp [hk]
      · simp [hk, hkey, List.mem_cons]

/-- Claim C8: with no attributes the data passes through unchanged; an array
is projected elementwise (order and length preserved); a projected
record holds exactly the declared attribute paths as keys, each bound
to the dot-path read of the input, with a missing path bound to
`undefined` rather than omitted. -/
theorem permission_filter_spec (p : Permission) :
    (∀ data : Json, p.attributes = none → p.filter data = data) ∧
    (∀ (elems : List Json) (attributes : List String), p.attributes = some attributes →
      p.filter (Json.arr elems) =
        Json.arr (elems.map (fun d => Json.obj (filterWithAttributes d attributes))) ∧
      (elems.map (fun d => Json.obj (filterWithAttributes d attributes))).length = elems.length) ∧
    (∀ (data : Json) (attributes : List String) (k : String),
      Obj.get (filterWithAttributes data attributes) k =
        if k ∈ attributes then some (getProperty data k) else none) ∧
    (∀ (data : Json) (attributes : List String) (k : String),
      k ∈ attributes → getProperty data k = Json.undef →
      Obj.get (filterWithAttributes data attributes) k = some Json.undef) := by
  refine ⟨fun data h => ?_, fun elems attributes h => ?_, fun data attributes k => ?_,
    fun data attributes k hk hu => ?_⟩
  · rw [Permission.filter, h]
  · rw [Permission.filter, h]
    exact ⟨rfl, List.length_map _ _⟩
  · rw [filterWithAttributes, get_foldl_set_getProperty]
    rfl
  · rw [filterWithAttributes, get_foldl_set_getProperty, if_pos hk, hu]

/-- Witness for C8: pass-through without attributes, and the spec's
projection law `{a:1,b:2,c:3}` restricted to `["a","b"]`. -/
theorem permission_filter_spec_witness :
    (Permission.mk true none none).filter (Json.num 3) = Json.num 3 ∧
    (Permission.mk true none (some ["a", "b"])).filter
        (Json.obj [("a", Json.num 1), ("b", Json.num 2), ("c", Json.num 3)]) =
      Json.obj [("a", Json.num 1), ("b", Json.num 2)] := by
  refine ⟨(permission_filter_spec (Permission.mk true none none)).1 (Json.num 3) rfl, ?_⟩
  rfl

/-- Claim C5 counterexample: a guard predicate exception travels out of
`Auth.check` unchanged instead of normalizing to `false`. -/
theorem guard_exception_propagates_counterexample :
    (Auth.ofGuards [throwingGuard]).check "boom" () = Except.error "exploded" ∧
    Except.error "exploded" ≠ (Except.ok false : Except String Bool) :=
  ⟨rfl, by simp⟩

/-- Claim C5 amended: an unknown guard name and a failing input schema both
normalize to `false`, but the guard predicate's outcome — including an
exception — is forwarded to the caller uncaught. -/
theorem guard_failures_amended {Input Parsed E : Type}
    (a : Auth Input Parsed E) (g : Guard Input Parsed E)
    (name : String) (input : Input) :
    (Obj.get a.guards name = none → a.check name input = Except.ok false) ∧
    (g.input input = none → g.check input = Except.ok false) ∧
    (∀ parsed, g.input input = some parsed → g.check input = g.checkHandler parsed) := by
  refine ⟨fun h => ?_, fun h => ?_, fun parsed h => ?_⟩
  · rw [Auth.check, h]
  · rw [Guard.check, h]
  · rw [Guard.check, h]

/-- Witness for the amended C5: unknown name and failing schema give
`false`; the throwing guard's exception is forwarded. -/
theorem guard_failures_amended_witness :
    (Auth.ofGuards ([] : List (Guard Unit Unit String))).check "missing" () = Except.ok false ∧
    failingParseGuard.check () = Except.ok false ∧
    throwingGuard.check () = Except.error "exploded" := by
  refine ⟨(guard_failures_amended (Auth.ofGuards []) failingParseGuard "missing" ()).1 rfl,
    (guard_failures_amended (Auth.ofGuards []) failingParseGuard "missing" ()).2.1 rfl, ?_⟩
  exact ((guard_failures_amended (Auth.ofGuards []) throwingGuard "missing" ()).2.2 () rfl).trans rfl

/-- Claim C6 counterexample: a session-shape mismatch and an internal roles
provider failure produce the same failure code, so the codes do not
distinguish schema mismatch from internal error. -/
theorem resolve_code_collision_counterexample :
    (resolve (Except.ok ()) parseUnitMismatch rolesUnitOk).failureCode =
      some "AUTH_INTERNAL_ERROR" ∧
    (resolve (Except.ok ()) parseUnitOk rolesUnitFail).failureCode =
      some "AUTH_INTERNAL_ERROR" :=
  ⟨rfl, rfl⟩

/-- Claim C6 amended: every verification failure is returned as a typed
failure value rather than thrown; a JOSE failure keeps its own
distinguishing code (expiry and bad signature differ), while a
session-shape mismatch and any other internal failure both surface as
`AUTH_INTERNAL_ERROR`. -/
theorem resolve_failure_codes_amended {P S R : Type}
    (verify : Except JoseError P) (parseSession : P → Except String S)
    (getBySession : S → Except String (List R)) :
    (∀ e, verify = Except.error e →
      resolve verify parseSession getBySession = SessionResolution.invalid e.code e.message) ∧
    (∀ p m, verify = Except.ok p → parseSession p = Except.error m →
      resolve verify parseSession getBySession =
        SessionResolution.invalid "AUTH_INTERNAL_ERROR" m) ∧
    (∀ p s m, verify = Except.ok p → parseSession p = Except.ok s →
      getBySession s = Except.error m →
      resolve verify parseSession getBySession =
        SessionResolution.invalid "AUTH_INTERNAL_ERROR" m) := by
  refine ⟨fun e h => ?_, fun p m h1 h2 => ?_, fun p s m h1 h2 h3 => ?_⟩
  · rw [resolve.eq_def, h]
  · simp only [resolve.eq_def, h1, h2]
  · simp only [resolve.eq_def, h1, h2, h3]

/-- Witness for the amended C6: an expired token and a bad signature
keep their distinct jose codes; shape mismatch maps to the internal
code. -/
theorem resolve_failure_codes_amended_witness :
    (resolve (Except.error ⟨"ERR_JWT_EXPIRED", "exp claim timestamp check failed"⟩)
        parseUnitOk rolesUnitOk) =
      SessionResolution.invalid "ERR_JWT_EXPIRED" "exp claim timestamp check failed" ∧
    (resolve (Except.error ⟨"ERR_JWS_SIGNATURE_VERIFICATION_FAILED", "signature verification failed"⟩)
        parseUnitOk rolesUnitOk) =
      SessionResolution.invalid "ERR_JWS_SIGNATURE_VERIFICATION_FAILED" "signature verification failed" ∧
    (resolve (Except.ok ()) parseUnitMismatch rolesUnitOk) =
      SessionResolution.invalid "AUTH_INTERNAL_ERROR" "invalid session shape" := by
  refine ⟨?_, ?_, ?_⟩
  · exact (resolve_failure_codes_amended (Except.error ⟨"ERR_JWT_EXPIRED", "exp claim timestamp check failed"⟩)
      parseUnitOk rolesUnitOk).1 _ rfl
  · exact (resolve_failure_codes_amended (Except.error ⟨"ERR_JWS_SIGNATURE_VERIFICATION_FAILED", "signature verification failed"⟩)
      parseUnitOk rolesUnitOk).1 _ rfl
  · exact (resolve_failure_codes_amended (Except.ok ()) parseUnitMismatch rolesUnitOk).2.1 () "invalid session shape" rfl rfl

end Lib

namespace Store

/-- Claim C9: a committed `set` batch makes the pair readable as `true`; an
`unset` with an action removes exactly that action entry; an `unset`
with no action removes the whole resource entry; operation batches
apply in submission order, and a later `set` on the same pair
overwrites an earlier one in the same batch. -/
theorem setPermissions_spec {C : Type} (p : RolePermissions C)
    (x read : String) (d1 d2 : Option C) (ops1 ops2 : List (Operation C))
    (hread : read ≠ "") :
    getPerm (setPermissions p [Operation.set x read none]) x read =
      some PermValue.always ∧
    (∀ r a, getPerm (setPermissions p [Operation.unset x (some read)]) r a =
      if r = x ∧ a = read then none else getPerm p r a) ∧
    (∀ r, Obj.get (setPermissions p [Operation.unset x none]) r =
      if r = x then none else Obj.get p r) ∧
    setPermissions p (ops1 ++ ops2) = setPermissions (setPermissions p ops1) ops2 ∧
    getPerm (setPermissions p [Operation.set x read d1, Operation.set x read d2]) x read =
      some (match d2 with | some c => PermValue.cond c | none => PermValue.always) := by
  refine ⟨?_, ?_, ?_, ?_, ?_⟩
  · show getPerm (assign p x read none) x read = some PermValue.always
    simp [assign, getPerm, Obj.get_set]
  · intro r a
    show getPerm (remove p x (some read)) r a = _
    rw [remove, if_neg (by simpa using hread)]
    cases hx : Obj.get p x with
    | none =>
      by_cases hr : r = x ∧ a = read
      · obtain ⟨hr1, hr2⟩ := hr
        subst hr1; subst hr2
        simp [getPerm, hx]
      · simp [hr]
    | some robj =>
      by_cases hr : r = x
      · subst hr
        rw [getPerm, Obj.get_set, if_pos rfl, Option.some_bind]
        by_cases ha : a = read
        · subst ha
          simp [Obj.get_del, getPerm, hx]
        · simp [Obj.get_del, ha, getPerm, hx]
      · rw [getPerm, Obj.get_set, if_neg hr, getPerm]
        simp [hr]
  · intro r
    show Obj.get (remove p x none) r = _
    rw [remove, Obj.get_del]
  · rw [setPermissions, setPermissions, setPermissions, List.foldl_append]
  · show getPerm (assign (assign p x read d1) x read d2) x read = _
    cases d2 <;> simp [assign, getPerm, Obj.get_set]

/-- Witness for C9 at a concrete empty starting mapping. -/
theorem setPermissions_spec_witness :
    getPerm (setPermissions ([] : RolePermissions Nat) [Operation.set "x" "read" none]) "x" "read" =
      some PermValue.always ∧
    getPerm (setPermissions ([("x", [("read", PermValue.always), ("list", PermValue.always)])] : RolePermissions Nat)
        [Operation.unset "x" (some "read")]) "x" "read" = none ∧
    getPerm (setPermissions ([("x", [("read", PermValue.always), ("list", PermValue.always)])] : RolePermissions Nat)
        [Operation.unset "x" (some "read")]) "x" "list" = some PermValue.always ∧
    Obj.get (setPermissions ([("x", [("read", PermValue.always)])] : RolePermissions Nat)
        [Operation.unset "x" none]) "x" = none ∧
    getPerm (setPermissions ([] : RolePermissions Nat)
        [Operation.set "x" "read" (some 1), Operation.set "x" "read" (some 2)]) "x" "read" =
      some (PermValue.cond 2) := by
  have h1 := setPermissions_spec ([] : RolePermissions Nat) "x" "read"
    (some 1) (some 2) [] [] (by decide)
  have h2 := setPermissions_spec
    ([("x", [("read", PermValue.always), ("list", PermValue.always)])] : RolePermissions Nat)
    "x" "read" (some 1) (some 2) [] [] (by decide)
  have h3 := setPermissions_spec ([("x", [("read", PermValue.always)])] : RolePermissions Nat)
    "x" "read" (some 1) (some 2) [] [] (by decide)
  exact ⟨h1.1, (h2.2.1 "x" "read").trans (by decide), (h2.2.1 "x" "list").trans (by decide),
    (h3.2.2.1 "x").trans (by decide), h1.2.2.2.2⟩

end Store

namespace V2

/-- Adding a list into the insertion-ordered set reaches exactly the
old and the new elements. -/
theorem mem_addToSet (acc l : List String) (s : String) :
    s ∈ addToSet acc l ↔ s ∈ acc ∨ s ∈ l := by
  induction l generalizing acc with
  | nil => simp [addToSet]
  | cons x xs ih =>
    have h1 : addToSet acc (x :: xs) =
        addToSet (if acc.contains x then acc else acc ++ [x]) xs := rfl
    rw [h1, ih]
    by_cases hc : acc.contains x = true
    · have hx : x ∈ acc := by simpa using hc
      rw [if_pos hc]
      simp only [List.mem_cons]
      constructor
      · rintro (h | h)
        · exact Or.inl h
        · exact Or.inr (Or.inr h)
      · rintro (h | h | h)
        · exact Or.inl h
        · exact Or.inl (by rw [h]; exact hx)
        · exact Or.inr h
    · rw [if_neg hc]
      simp only [List.mem_append, List.mem_singleton, List.mem_cons]
      tauto

/-- The loop's fallback flag stays on exactly while no filter override
has been seen. -/
theorem foldl_filterStep_fst {Cond : Type} (resourceId actionId : String)
    (assignments : List (RolePermissions Cond)) (fb : Bool) (acc : List String) :
    (assignments.foldl (filterStep resourceId actionId) (fb, acc)).1 =
      (fb && (overridesOf assignments resourceId actionId).isEmpty) := by
  induction assignments generalizing fb acc with
  | nil => simp [overridesOf]
  | cons assignment rest ih =>
    rw [List.foldl_cons]
    cases hlook : (Obj.get assignment resourceId).bind (fun r => Obj.get r actionId) with
    | none =>
      simp only [overridesOf, List.filterMap_cons, filterStep, hlook]
      exact ih fb acc
    | some entry =>
      cases entry with
      | always =>
        simp only [overridesOf, List.filterMap_cons, filterStep, hlook]
        exact ih fb acc
      | settings s =>
        cases hf : s.filter with
        | none =>
          simp only [overridesOf, List.filterMap_cons, filterStep, hlook, hf]
          exact ih fb acc
        | some l =>
          simp only [overridesOf, List.filterMap_cons, filterStep, hlook, hf]
          rw [ih false (addToSet acc l)]
          simp

/-- The loop's accumulated set reaches exactly the seed and every
element of every override. -/
theorem foldl_filterStep_snd {Cond : Type} (resourceId actionId : String)
    (assignments : List (RolePermissions Cond)) (fb : Bool) (acc : List String)
    (s : String) :
    s ∈ (assignments.foldl (filterStep resourceId actionId) (fb, acc)).2 ↔
      s ∈ acc ∨ ∃ l ∈ overridesOf assignments resourceId actionId, s ∈ l := by
  induction assignments generalizing fb acc with
  | nil => simp [overridesOf]
  | cons assignment rest ih =>
    rw [List.foldl_cons]
    cases hlook : (Obj.get assignment resourceId).bind (fun r => Obj.get r actionId) with
    | none =>
      simp only [overridesOf, List.filterMap_cons, filterStep, hlook]
      exact ih fb acc
    | some entry =>
      cases entry with
      | always =>
        simp only [overridesOf, List.filterMap_cons, filterStep, hlook]
        exact ih fb acc
      | settings st =>
        cases hf : st.filter with
        | none =>
          simp only [overridesOf, List.filterMap_cons, filterStep, hlook, hf]
          exact ih fb acc
        | some l =>
          simp only [overridesOf, List.filterMap_cons, filterStep, hlook, hf]
          rw [ih false (addToSet acc l), mem_addToSet]
          simp only [List.mem_cons]
          constructor
          · rintro ((h | h) | ⟨l', hl', hs⟩)
            · exact Or.inl h
            · exact Or.inr ⟨l, Or.inl rfl, h⟩
            · exact Or.inr ⟨l', Or.inr hl', hs⟩
          · rintro (h | ⟨l', hl' | hl', hs⟩)
            · exact Or.inl (Or.inl h)
            · exact Or.inl (Or.inr (hl' ▸ hs))
            · exact Or.inr ⟨l', hl', hs⟩

/-- Claim C1: when at least one assignment carries a filter override for the
pair, the merged filter is defined and reaches exactly the union of all
overrides (the schema fallback is disabled); with no overrides the
schema-level filter is returned unmodified; a granted check carries the
merged filter as its attributes. -/
theorem getActionFilter_union_spec {Data Cond : Type} (a : Access Data Cond)
    (resourceId actionId : String) (data : Data) :
    (overridesOf a.assignments resourceId actionId ≠ [] →
      ∃ merged, a.getActionFilter resourceId actionId = some merged ∧
        ∀ s, s ∈ merged ↔ ∃ l ∈ overridesOf a.assignments resourceId actionId, s ∈ l) ∧
    (overridesOf a.assignments resourceId actionId = [] →
      a.getActionFilter resourceId actionId =
        (match (Obj.get a.permissions resourceId).bind (fun r => Obj.get r actionId) with
         | some (SchemaAction.settings s) => s.filter.map (fun f => f.filter)
         | _ => none)) ∧
    (a.has resourceId actionId data = true →
      (a.check resourceId actionId data).attributes = a.getActionFilter resourceId actionId) := by
  refine ⟨fun hne => ?_, fun hemp => ?_, fun hhas => ?_⟩
  · have hfst := foldl_filterStep_fst resourceId actionId a.assignments true []
    have hisEmpty : (overridesOf a.assignments resourceId actionId).isEmpty = false := by
      cases hov : overridesOf a.assignments resourceId actionId with
      | nil => exact absurd hov hne
      | cons _ _ => rfl
    rw [hisEmpty, Bool.and_false] at hfst
    refine ⟨(a.assignments.foldl (filterStep resourceId actionId) (true, [])).2, ?_, fun s => ?_⟩
    · simp only [Access.getActionFilter, hfst, if_pos]
    · simpa using foldl_filterStep_snd resourceId actionId a.assignments true [] s
  · have hfst := foldl_filterStep_fst resourceId actionId a.assignments true []
    rw [hemp] at hfst
    simp only [List.isEmpty_nil, Bool.and_true] at hfst
    simp only [Access.getActionFilter, hfst]
    rw [if_neg (fun h => Bool.noConfusion h)]
  · rw [Access.check, if_neg (by rw [hhas]; exact fun h => Bool.noConfusion h)]
    rfl

/-- Witness for C1: overrides `["a"]` and `["a","b"]` merge to exactly
`["a","b"]`, overriding the schema filter, and a granted check carries
them; with no overrides the schema filter `["name","email"]` is used. -/
theorem getActionFilter_union_spec_witness :
    (∃ merged, unionAccess.getActionFilter "users" "read" = some merged ∧
      ∀ s, s ∈ merged ↔ ∃ l ∈ overridesOf unionAccess.assignments "users" "read", s ∈ l) ∧
    unionAccess.getActionFilter "users" "read" = some ["a", "b"] ∧
    (unionAccess.check "users" "read" ()).attributes = some ["a", "b"] ∧
    noOverrideAccess.getActionFilter "users" "read" = some ["name", "email"] := by
  refine ⟨(getActionFilter_union_spec unionAccess "users" "read" ()).1 (by decide), rfl, ?_, ?_⟩
  · exact ((getActionFilter_union_spec unionAccess "users" "read" ()).2.2 (by decide)).trans rfl
  · exact ((getActionFilter_union_spec noOverrideAccess "users" "read" ()).2.1 (by decide)).trans rfl

end V2

end ValkyrAuth
